import Mathlib

/-!
Verification of the GlobaLeaks generic model layer
(`backend/globaleaks/models/__init__.py`).

The development shallowly embeds the Python code:

* Python runtime values relevant to this layer become the inductive type
  `Value` (Python `None`, text, integers, booleans, and language-keyed
  dictionaries used by localized fields and `FieldAttr.value`).
* An entity instance is a valuation `Entity` from attribute names to values;
  `setattr` becomes `setField`.
* `Model.update` walks the declarative key buckets (`unicode_keys`,
  `int_keys`, `datetime_keys`, `bool_keys`, `localized_keys`, `json_keys`)
  exactly in source order; each bucket loop skips keys that are absent from
  the input mapping or mapped to `None`, coerces the value, and assigns it.
  A Python exception in the middle of the walk (a failed `int(...)`
  coercion, or a failed `dict.update` on a localized field) is modelled by
  `UpResult.err`, which carries the entity state at the moment the
  exception propagates: assignments already performed are NOT rolled back,
  exactly as for a mutated Python object.
* `Model.dict` (serialization) and `FieldAttr.update` (the dynamically
  typed `value` attribute) are embedded separately, following their source.
* The derived computations `InternalTip.is_wb_access_revoked` and
  `InternalTip.wb_revoke_access_date` are embedded over an explicit
  relational state (a list of `WhistleblowerTip` rows) and an explicit
  retention-window parameter (the configuration value
  `GLSettings.memory_copy.wbtip_timetolive`, whose persistent source is the
  `Node.wbtip_timetolive` column).

Timestamps are modelled as integers (seconds); `timedelta(days=n)` is
`n * 86400` seconds.
-/

/-- A Python runtime value as used by this model layer: `None`, unicode
text, an integer, a boolean, or a language-keyed dictionary (the JSON
columns holding localized text). -/
inductive Value where
  | none
  | str (s : String)
  | int (n : Int)
  | bool (b : Bool)
  | dict (entries : List (String × String))
deriving DecidableEq

/-- An entity instance: a valuation from attribute names to values
(the in-memory state of a Storm model object). -/
def Entity : Type := String → Value

/-- Python `setattr(self, k, v)`. -/
def setField (e : Entity) (k : String) (v : Value) : Entity :=
  fun q => if q = k then v else e q

/-- An input mapping for `update`: `Option.none` means the key is absent
from the dict, `Option.some Value.none` means the key is present and maps
to Python `None`. -/
def InputMap : Type := String → Option Value

/-- Python 2 `repr` of a unicode string, used when a dict is coerced to
text. -/
def pyQuote (s : String) : String :=
  "u\x27" ++ s ++ "\x27"

/-- Python 2 `unicode(...)` of a dict: its repr. -/
def pyDictRepr (m : List (String × String)) : String :=
  "\x7b" ++ String.intercalate (", ") (m.map (fun p => pyQuote p.1 ++ (": ") ++ pyQuote p.2)) ++ "\x7d"

/-- Python 2 `unicode(v)`: text representation of a value. -/
def pyUnicode : Value → String
  | Value.none => "None"
  | Value.str s => s
  | Value.int n => toString n
  | Value.bool b => if b then ("True") else ("False")
  | Value.dict m => pyDictRepr m

/-- The numeric value of a decimal digit character, if it is one. -/
def charDigit (c : Char) : Option Nat :=
  if 48 ≤ c.toNat ∧ c.toNat ≤ 57 then Option.some (c.toNat - 48) else Option.none

/-- Base-10 digit-string accumulator for `pyInt`. -/
def parseDigitsAux : List Char → Nat → Option Nat
  | [], acc => Option.some acc
  | c :: rest, acc =>
    match charDigit c with
    | Option.some d => parseDigitsAux rest (10 * acc + d)
    | Option.none => Option.none

/-- A non-empty all-digit character list as a natural number. -/
def parseDigits : List Char → Option Nat
  | [] => Option.none
  | c :: rest => parseDigitsAux (c :: rest) 0

/-- Python `int(s)` on text: an optional sign followed by at least one
decimal digit; anything else raises `ValueError`. -/
def pyStrToInt (s : String) : Option Int :=
  match s.toList with
  | [] => Option.none
  | c :: rest =>
    if c = Char.ofNat 45 then (parseDigits rest).map (fun n => -(n : Int))
    else if c = Char.ofNat 43 then (parseDigits rest).map (fun n => (n : Int))
    else (parseDigits (c :: rest)).map (fun n => (n : Int))

/-- Python `int(v)`: base-10 coercion; `Option.none` models the
`ValueError`/`TypeError` raised when the value cannot be interpreted as an
integer. -/
def pyInt : Value → Option Int
  | Value.int n => Option.some n
  | Value.bool b => Option.some (if b then 1 else 0)
  | Value.str s => pyStrToInt s
  | _ => Option.none

/-- Python truthiness `bool(v)`. -/
def pyTruthy : Value → Bool
  | Value.none => false
  | Value.str s => !(s == "")
  | Value.int n => !(n == 0)
  | Value.bool b => b
  | Value.dict m => !m.isEmpty

/-- The boolean-bucket coercion of `Model.update`: the literal token
`true` gives `True`, the literal `false` gives `False`, anything
else goes through Python truthiness. -/
def boolCoerce (v : Value) : Bool :=
  if v = Value.str ("true") then true
  else if v = Value.str ("false") then false
  else pyTruthy v

/-- Python `d[k] = v` on an (insertion-ordered) dict: replace in place if
the key exists, append otherwise. -/
def dictSet : List (String × String) → String → String → List (String × String)
  | [], k, v => [(k, v)]
  | p :: rest, k, v => if p.1 = k then (k, v) :: rest else p :: dictSet rest k v

/-- Python `d.get(k)` on an insertion-ordered dict. -/
def dictLookup : List (String × String) → String → Option String
  | [], _ => Option.none
  | p :: rest, k => if p.1 = k then Option.some p.2 else dictLookup rest k

/-- Python `previous.update(incoming)` on dicts: apply the incoming
entries key by key on top of `previous` (incoming entries win, other
entries are preserved). -/
def dictUpdate (m incoming : List (String × String)) : List (String × String) :=
  incoming.foldl (fun acc p => dictSet acc p.1 p.2) m

/-- The outcome of running a (possibly failing) mutation on an entity.
`err` carries the entity state at the moment the Python exception
propagates: assignments performed before the failure are kept, as on a
mutated Python object. -/
inductive UpResult where
  | ok (e : Entity)
  | err (e : Entity) (exc : String)

/-- The entity state after the operation, whether it succeeded or
raised. -/
def UpResult.entity : UpResult → Entity
  | UpResult.ok e => e
  | UpResult.err e _ => e

/-- Did the operation complete without raising? -/
def UpResult.isOk : UpResult → Bool
  | UpResult.ok _ => true
  | UpResult.err _ _ => false

/-- The exception class raised, if any. -/
def UpResult.exc : UpResult → Option String
  | UpResult.ok _ => Option.none
  | UpResult.err _ s => Option.some s

/-- Sequencing under exception propagation. -/
def UpResult.andThen : UpResult → (Entity → UpResult) → UpResult
  | UpResult.ok e, f => f e
  | UpResult.err e s, _ => UpResult.err e s

/-- One bucket loop of `Model.update`: iterate the key list of the bucket in
order; a key absent from the input, or present but mapped to `None`, is
skipped; otherwise the per-bucket step runs (and any exception it raises
aborts the remaining iterations). -/
def runKeys (vs : InputMap) (step : Entity → String → Value → UpResult) :
    List String → Entity → UpResult
  | [], e => UpResult.ok e
  | k :: ks, e =>
    match vs k with
    | Option.none => runKeys vs step ks e
    | Option.some v =>
      if v = Value.none then runKeys vs step ks e
      else UpResult.andThen (step e k v) (fun e2 => runKeys vs step ks e2)

/-- The `unicode_keys` loop body: `setattr(self, k, unicode(values[k]))`. -/
def unicodeStep (e : Entity) (k : String) (v : Value) : UpResult :=
  UpResult.ok (setField e k (Value.str (pyUnicode v)))

/-- The `int_keys` loop body: `setattr(self, k, int(values[k]))`; a failing
coercion raises `ValueError`. -/
def intStep (e : Entity) (k : String) (v : Value) : UpResult :=
  match pyInt v with
  | Option.some n => UpResult.ok (setField e k (Value.int n))
  | Option.none => UpResult.err e ("ValueError")

/-- The `datetime_keys` loop body: the value is assigned as-is. -/
def datetimeStep (e : Entity) (k : String) (v : Value) : UpResult :=
  UpResult.ok (setField e k v)

/-- The `bool_keys` loop body: literal `true` / `false` tokens, otherwise
Python truthiness. -/
def boolStep (e : Entity) (k : String) (v : Value) : UpResult :=
  UpResult.ok (setField e k (Value.bool (boolCoerce v)))

/-- The `localized_keys` loop body: if the current value is a non-empty dict,
run `previous.update(value)` and assign the merged dict; otherwise assign
the incoming value outright.  `previous.update` on a non-dict raises
(`ValueError` for a non-empty string, `TypeError` for other non-iterable
values; an empty string merges nothing). -/
def localizedStep (e : Entity) (k : String) (v : Value) : UpResult :=
  match e k with
  | Value.dict prev =>
    if prev.isEmpty then UpResult.ok (setField e k v)
    else
      match v with
      | Value.dict inc => UpResult.ok (setField e k (Value.dict (dictUpdate prev inc)))
      | Value.str s =>
        if s = "" then UpResult.ok (setField e k (Value.dict prev))
        else UpResult.err e ("ValueError")
      | _ => UpResult.err e ("TypeError")
  | _ => UpResult.ok (setField e k v)

/-- The `json_keys` loop body: wholesale assignment. -/
def jsonStep (e : Entity) (k : String) (v : Value) : UpResult :=
  UpResult.ok (setField e k v)

/-- The per-entity-kind declarative attribute schema: the six key buckets
declared on each model class (`unicode_keys`, `int_keys`,
`datetime_keys`, `bool_keys`, `localized_keys`, `json_keys`). -/
structure Schema where
  unicode_keys : List String
  int_keys : List String
  datetime_keys : List String
  bool_keys : List String
  localized_keys : List String
  json_keys : List String

/-- The generic partial-update engine `Model.update(values)`.  `values`
is `Option.none` for a `None` argument (a no-op); otherwise the six
bucket loops run in source order, each assignment happening immediately
(there is no buffering and no rollback on failure). -/
def Model.update (sch : Schema) (values : Option InputMap) (e : Entity) : UpResult :=
  match values with
  | Option.none => UpResult.ok e
  | Option.some vs =>
    UpResult.andThen (runKeys vs unicodeStep sch.unicode_keys e) (fun e1 =>
    UpResult.andThen (runKeys vs intStep sch.int_keys e1) (fun e2 =>
    UpResult.andThen (runKeys vs datetimeStep sch.datetime_keys e2) (fun e3 =>
    UpResult.andThen (runKeys vs boolStep sch.bool_keys e3) (fun e4 =>
    UpResult.andThen (runKeys vs localizedStep sch.localized_keys e4) (fun e5 =>
    runKeys vs jsonStep sch.json_keys e5)))))

/-- Serialization, `Model.dict(*keys)`.  The Python method returns
`{key: getattr(self, key) for key in keys & public}`; the returned dict is
modelled by its key set paired with the entity valuation.  An empty
requested set means all public attributes; requested keys outside the
public set raise `KeyError` carrying the offending keys, with no partial
result and no mutation (the operation reads the entity only). -/
def Model.dict (pub : Finset String) (req : Finset String) (e : Entity) :
    Except (Finset String) (Finset String × Entity) :=
  let keys := if req = ∅ then pub else req
  let notAllowed := keys \ pub
  if notAllowed = ∅ then Except.ok (keys ∩ pub, e) else Except.error notAllowed

/-- The field-attribute override `FieldAttr.update(values)`.  The four
sub-fields are read with `values[...]` (raising `KeyError` when absent,
after the sub-fields already read have been assigned); `field_id`, `name`
and `type` are always coerced to text; the treatment of `value` branches
on the `type` just assigned: the literal `localized` merges `value` as
a localized dict, any other type coerces it to text. -/
def FieldAttr.update (values : Option InputMap) (e : Entity) : UpResult :=
  match values with
  | Option.none => UpResult.ok e
  | Option.some vs =>
    match vs ("field_id") with
    | Option.none => UpResult.err e ("KeyError")
    | Option.some vfid =>
      let e1 := setField e ("field_id") (Value.str (pyUnicode vfid))
      match vs ("name") with
      | Option.none => UpResult.err e1 ("KeyError")
      | Option.some vname =>
        let e2 := setField e1 ("name") (Value.str (pyUnicode vname))
        match vs ("type") with
        | Option.none => UpResult.err e2 ("KeyError")
        | Option.some vtype =>
          let e3 := setField e2 ("type") (Value.str (pyUnicode vtype))
          if e3 ("type") = Value.str ("localized") then
            match vs ("value") with
            | Option.none => UpResult.err e3 ("KeyError")
            | Option.some v => localizedStep e3 ("value") v
          else
            match vs ("value") with
            | Option.none => UpResult.err e3 ("KeyError")
            | Option.some v => UpResult.ok (setField e3 ("value") (Value.str (pyUnicode v)))

/-- A `WhistleblowerTip` row: the optional secret-access link of an
internal tip. -/
structure WhistleblowerTip where
  id : String
  internaltip_id : String
  receipt_hash : String
  access_counter : Int
deriving DecidableEq

/-- The Storm reference `InternalTip.whistleblowertip`: the
`WhistleblowerTip` row whose `internaltip_id` equals the id of this tip,
resolved against the current relational state. -/
def InternalTip.whistleblowertip (db : List WhistleblowerTip) (tid : String) :
    Option WhistleblowerTip :=
  db.find? (fun w => w.internaltip_id == tid)

/-- The derived check `InternalTip.is_wb_access_revoked`: `self.whistleblowertip is None`. -/
def InternalTip.is_wb_access_revoked (db : List WhistleblowerTip) (tid : String) : Bool :=
  (InternalTip.whistleblowertip db tid).isNone

/-- Python `timedelta(days = d)` in seconds. -/
def timedeltaDays (d : Int) : Int := d * 86400

/-- The stored state of an `InternalTip` row relevant to the revocation
deadline. -/
structure InternalTipRow where
  id : String
  wb_last_access : Int
deriving DecidableEq

/-- The derived computation `InternalTip.wb_revoke_access_date`: the whistleblower last-access
timestamp plus the configured retention window in days
(`GLSettings.memory_copy.wbtip_timetolive`, the memory copy of the
`Node.wbtip_timetolive` configuration column, passed here explicitly). -/
def InternalTip.wb_revoke_access_date (wbtip_timetolive : Int) (t : InternalTipRow) : Int :=
  t.wb_last_access + timedeltaDays wbtip_timetolive

/-! Concrete attribute schemas, transcribed from the bucket lists declared
on the model classes. -/

/-- The buckets of the `User` model. -/
def User_schema : Schema :=
  Schema.mk ["username", "role", "state", "language", "mail_address", "name", "public_name"]
    [] [] ["deletable", "password_change_needed"] ["description"] []

/-- The buckets of the `Context` model. -/
def Context_schema : Schema :=
  Schema.mk ["questionnaire_id"]
    ["tip_timetolive", "maximum_selectable_receivers", "presentation_order",
     "steps_navigation_requires_completion"]
    []
    ["select_all_receivers", "show_small_receiver_cards", "show_context",
     "show_recipients_details", "show_receivers_in_alphabetical_order",
     "allow_recipients_selection", "enable_comments", "enable_messages",
     "enable_two_way_comments", "enable_two_way_messages", "enable_attachments"]
    ["name", "description", "recipients_clarification", "status_page_message"]
    []

/-- The buckets of the `ApplicationData` model. -/
def ApplicationData_schema : Schema :=
  Schema.mk [] ["version"] [] [] [] ["default_questionnaire"]

/-! Concrete fixtures used by the closed witness and counterexample
theorems. -/

/-- An entity with every attribute unset (`None`). -/
def wEntityNone : Entity := fun _ => Value.none

/-- A `Context` instance holding a questionnaire id and a localized name
with one language. -/
def wEntityContext : Entity := fun k =>
  if k = ("questionnaire_id") then Value.str ("q1")
  else if k = ("name") then Value.dict [("en", "a")]
  else Value.none

/-- Input that updates `questionnaire_id` and then fails the integer
coercion of `tip_timetolive`. -/
def wInputCoerceFail : InputMap := fun k =>
  if k = ("questionnaire_id") then Option.some (Value.str ("q2"))
  else if k = ("tip_timetolive") then Option.some (Value.str ("abc"))
  else Option.none

/-- Input merging one language into the localized `name` field. -/
def wInputMerge : InputMap := fun k =>
  if k = ("name") then Option.some (Value.dict [("it", "b")]) else Option.none

/-- Input with an explicit `None` for `name` and a fresh
`questionnaire_id`. -/
def wInputNullName : InputMap := fun k =>
  if k = ("name") then Option.some Value.none
  else if k = ("questionnaire_id") then Option.some (Value.str ("q2"))
  else Option.none

/-- An `ApplicationData` input whose `version` fails the integer coercion
while `default_questionnaire` is present and non-null. -/
def wInputAppData : InputMap := fun k =>
  if k = ("version") then Option.some (Value.str ("abc"))
  else if k = ("default_questionnaire") then Option.some (Value.dict [("a", "b")])
  else Option.none

/-- Input setting the boolean `deletable` to the text `no`. -/
def wInputBoolNo : InputMap := fun k =>
  if k = ("deletable") then Option.some (Value.str ("no")) else Option.none

/-- First `FieldAttr` input: kind `localized`, value `{en: x}`. -/
def wInputFA1 : InputMap := fun k =>
  if k = ("field_id") then Option.some (Value.str ("f1"))
  else if k = ("name") then Option.some (Value.str ("n"))
  else if k = ("type") then Option.some (Value.str ("localized"))
  else if k = ("value") then Option.some (Value.dict [("en", "x")])
  else Option.none

/-- Second `FieldAttr` input: kind `localized`, value `{it: y}`. -/
def wInputFA2 : InputMap := fun k =>
  if k = ("field_id") then Option.some (Value.str ("f1"))
  else if k = ("name") then Option.some (Value.str ("n"))
  else if k = ("type") then Option.some (Value.str ("localized"))
  else if k = ("value") then Option.some (Value.dict [("it", "y")])
  else Option.none

/-- A `FieldAttr` input mapping all four sub-fields to explicit `None`. -/
def wInputFANull : InputMap := fun k =>
  if k = ("field_id") then Option.some Value.none
  else if k = ("name") then Option.some Value.none
  else if k = ("type") then Option.some Value.none
  else if k = ("value") then Option.some Value.none
  else Option.none

/-- A `FieldAttr` input omitting the `value` key. -/
def wInputFAMissing : InputMap := fun k =>
  if k = ("field_id") then Option.some (Value.str ("f"))
  else if k = ("name") then Option.some (Value.str ("n"))
  else if k = ("type") then Option.some (Value.str ("int"))
  else Option.none

/-- A `FieldAttr` instance whose `field_id` is set. -/
def wEntityFA : Entity := fun k =>
  if k = ("field_id") then Value.str ("abc") else Value.none

/-! Basic lemmas about the embedding. -/

theorem setField_self (e : Entity) (k : String) (v : Value) : setField e k v k = v := by
  simp [setField]

theorem setField_ne (e : Entity) (k : String) (v : Value) (f : String) (h : f ≠ k) :
    setField e k v f = e f := by
  simp [setField, h]

theorem unicodeStep_frame (e : Entity) (k : String) (v : Value) (f : String) (h : k ≠ f) :
    ((unicodeStep e k v).entity) f = e f := by
  simp [unicodeStep, UpResult.entity]
  exact setField_ne e k _ f (Ne.symm h)

theorem intStep_frame (e : Entity) (k : String) (v : Value) (f : String) (h : k ≠ f) :
    ((intStep e k v).entity) f = e f := by
  unfold intStep
  cases hp : pyInt v with
  | none => rfl
  | some n =>
    simp [UpResult.entity]
    exact setField_ne e k _ f (Ne.symm h)

theorem datetimeStep_frame (e : Entity) (k : String) (v : Value) (f : String) (h : k ≠ f) :
    ((datetimeStep e k v).entity) f = e f := by
  simp [datetimeStep, UpResult.entity]
  exact setField_ne e k v f (Ne.symm h)

theorem boolStep_frame (e : Entity) (k : String) (v : Value) (f : String) (h : k ≠ f) :
    ((boolStep e k v).entity) f = e f := by
  simp [boolStep, UpResult.entity]
  exact setField_ne e k _ f (Ne.symm h)

theorem localizedStep_frame (e : Entity) (k : String) (v : Value) (f : String) (h : k ≠ f) :
    ((localizedStep e k v).entity) f = e f := by
  unfold localizedStep
  cases he : e k with
  | dict prev =>
    by_cases hp : prev.isEmpty
    · simp [hp, UpResult.entity, setField_ne e k _ f (Ne.symm h)]
    · cases v with
      | dict inc => simp [hp, UpResult.entity, setField_ne e k _ f (Ne.symm h)]
      | str s =>
        by_cases hs : s = ""
        · simp [hp, hs, UpResult.entity, setField_ne e k _ f (Ne.symm h)]
        · simp [hp, hs, UpResult.entity]
      | none => simp [hp, UpResult.entity]
      | int n => simp [hp, UpResult.entity]
      | bool b => simp [hp, UpResult.entity]
  | none => simp [UpResult.entity, setField_ne e k v f (Ne.symm h)]
  | str s => simp [UpResult.entity, setField_ne e k v f (Ne.symm h)]
  | int n => simp [UpResult.entity, setField_ne e k v f (Ne.symm h)]
  | bool b => simp [UpResult.entity, setField_ne e k v f (Ne.symm h)]

theorem jsonStep_frame (e : Entity) (k : String) (v : Value) (f : String) (h : k ≠ f) :
    ((jsonStep e k v).entity) f = e f := by
  simp [jsonStep, UpResult.entity]
  exact setField_ne e k v f (Ne.symm h)

theorem andThen_ok (r : UpResult) (g : Entity → UpResult) (e2 : Entity)
    (h : UpResult.andThen r g = UpResult.ok e2) :
    ∃ e1, r = UpResult.ok e1 ∧ g e1 = UpResult.ok e2 := by
  cases r with
  | ok e1 => exact ⟨e1, rfl, h⟩
  | err e s => simp [UpResult.andThen] at h

theorem andThen_entity (r : UpResult) (g : Entity → UpResult) (f : String)
    (hg : ∀ e1, ((g e1).entity) f = e1 f) :
    ((UpResult.andThen r g).entity) f = (r.entity) f := by
  cases r with
  | ok e1 => exact hg e1
  | err e s => rfl

theorem UpResult.isOk_iff (r : UpResult) : r.isOk = true ↔ ∃ e, r = UpResult.ok e := by
  cases r with
  | ok e =>
    refine ⟨fun _ => ⟨e, rfl⟩, fun _ => rfl⟩
  | err e s =>
    constructor
    · intro h
      simp [UpResult.isOk] at h
    · rintro ⟨e1, he⟩
      cases he

theorem runKeys_cons (vs : InputMap) (step : Entity → String → Value → UpResult)
    (k : String) (ks : List String) (e : Entity) :
    runKeys vs step (k :: ks) e =
      match vs k with
      | Option.none => runKeys vs step ks e
      | Option.some v =>
        if v = Value.none then runKeys vs step ks e
        else UpResult.andThen (step e k v) (fun e2 => runKeys vs step ks e2) := rfl

theorem runKeys_cons_absent (vs : InputMap) (step : Entity → String → Value → UpResult)
    (k : String) (ks : List String) (e : Entity) (h : vs k = Option.none) :
    runKeys vs step (k :: ks) e = runKeys vs step ks e := by
  rw [runKeys_cons, h]

theorem runKeys_cons_null (vs : InputMap) (step : Entity → String → Value → UpResult)
    (k : String) (ks : List String) (e : Entity) (h : vs k = Option.some Value.none) :
    runKeys vs step (k :: ks) e = runKeys vs step ks e := by
  rw [runKeys_cons, h]
  simp

theorem runKeys_cons_val (vs : InputMap) (step : Entity → String → Value → UpResult)
    (k : String) (ks : List String) (e : Entity) (v : Value)
    (h : vs k = Option.some v) (hne : v ≠ Value.none) :
    runKeys vs step (k :: ks) e =
      UpResult.andThen (step e k v) (fun e2 => runKeys vs step ks e2) := by
  rw [runKeys_cons, h]
  simp [hne]

theorem runKeys_preserves (vs : InputMap) (step : Entity → String → Value → UpResult) (f : String)
    (hstep : ∀ e k v, k ≠ f → ((step e k v).entity) f = e f) :
    ∀ (ks : List String) (e : Entity),
      (f ∉ ks ∨ vs f = Option.none ∨ vs f = Option.some Value.none) →
      ((runKeys vs step ks e).entity) f = e f := by
  intro ks
  induction ks with
  | nil => intro e _; rfl
  | cons k ks ih =>
    intro e h
    have hks : f ∉ ks ∨ vs f = Option.none ∨ vs f = Option.some Value.none := by
      rcases h with h | h
      · exact Or.inl (fun hm => h (List.mem_cons_of_mem _ hm))
      · exact Or.inr h
    rw [runKeys_cons]
    cases hv : vs k with
    | none => exact ih e hks
    | some v =>
      by_cases hvn : v = Value.none
      · simp only [hvn, if_pos rfl]
        exact ih e hks
      · simp only [if_neg hvn]
        have hkf : k ≠ f := by
          intro he
          rcases h with h | h | h
          · exact h (he ▸ List.mem_cons_self k ks)
          · rw [he] at hv; rw [hv] at h; cases h
          · rw [he] at hv; rw [hv] at h
            exact hvn (Option.some.inj h)
        cases hs : step e k v with
        | ok e1 =>
          have h1 : e1 f = e f := by
            have := hstep e k v hkf
            rw [hs] at this
            exact this
          simp only [UpResult.andThen]
          rw [ih e1 hks, h1]
        | err e2 s =>
          have h2 : e2 f = e f := by
            have := hstep e k v hkf
            rw [hs] at this
            exact this
          simp only [UpResult.andThen, UpResult.entity]
          exact h2

theorem runKeys_total (vs : InputMap) (step : Entity → String → Value → UpResult)
    (htot : ∀ e k v, (step e k v).isOk = true) :
    ∀ (ks : List String) (e : Entity), (runKeys vs step ks e).isOk = true := by
  intro ks
  induction ks with
  | nil => intro e; rfl
  | cons k ks ih =>
    intro e
    rw [runKeys_cons]
    cases hv : vs k with
    | none => exact ih e
    | some v =>
      by_cases hvn : v = Value.none
      · simp only [hvn, if_pos rfl]
        exact ih e
      · simp only [if_neg hvn]
        cases hs : step e k v with
        | ok e1 =>
          simp only [UpResult.andThen]
          exact ih e1
        | err e2 s =>
          have := htot e k v
          rw [hs] at this
          simp [UpResult.isOk] at this

theorem runKeys_append_ok (vs : InputMap) (step : Entity → String → Value → UpResult) (f : String)
    (hstep : ∀ e k v, k ≠ f → ((step e k v).entity) f = e f) :
    ∀ (l1 rest : List String), f ∉ l1 → ∀ (e e2 : Entity),
      runKeys vs step (l1 ++ rest) e = UpResult.ok e2 →
      ∃ emid, emid f = e f ∧ runKeys vs step rest emid = UpResult.ok e2 := by
  intro l1
  induction l1 with
  | nil =>
    intro rest _ e e2 h
    exact ⟨e, rfl, h⟩
  | cons k l1 ih =>
    intro rest hf e e2 h
    have hkf : k ≠ f := fun he => hf (he ▸ List.mem_cons_self k l1)
    have hfl1 : f ∉ l1 := fun hm => hf (List.mem_cons_of_mem _ hm)
    rw [List.cons_append] at h
    cases hv : vs k with
    | none =>
      rw [runKeys_cons_absent vs step k _ e hv] at h
      exact ih rest hfl1 e e2 h
    | some v =>
      by_cases hvn : v = Value.none
      · rw [hvn] at hv
        rw [runKeys_cons_null vs step k _ e hv] at h
        exact ih rest hfl1 e e2 h
      · rw [runKeys_cons_val vs step k _ e v hv hvn] at h
        cases hs : step e k v with
        | ok e1 =>
          rw [hs] at h
          simp only [UpResult.andThen] at h
          obtain ⟨emid, hm1, hm2⟩ := ih rest hfl1 e1 e2 h
          have h1 : e1 f = e f := by
            have := hstep e k v hkf
            rw [hs] at this
            exact this
          exact ⟨emid, by rw [hm1, h1], hm2⟩
        | err e3 s =>
          rw [hs] at h
          simp [UpResult.andThen] at h

theorem runKeys_bool_mem (vs : InputMap) (F : String) (v : Value)
    (hv : vs F = Option.some v) (hne : v ≠ Value.none) :
    ∀ (ks : List String) (e e2 : Entity), F ∈ ks →
      runKeys vs boolStep ks e = UpResult.ok e2 →
      e2 F = Value.bool (boolCoerce v) := by
  intro ks
  induction ks with
  | nil =>
    intro e e2 hm
    exact absurd hm (List.not_mem_nil F)
  | cons k ks ih =>
    intro e e2 hm h
    by_cases hFks : F ∈ ks
    · cases hvk : vs k with
      | none =>
        rw [runKeys_cons_absent vs boolStep k ks e hvk] at h
        exact ih e e2 hFks h
      | some w =>
        by_cases hw : w = Value.none
        · rw [hw] at hvk
          rw [runKeys_cons_null vs boolStep k ks e hvk] at h
          exact ih e e2 hFks h
        · rw [runKeys_cons_val vs boolStep k ks e w hvk hw] at h
          simp only [boolStep, UpResult.andThen] at h
          exact ih _ e2 hFks h
    · have hkF : k = F := by
        rcases List.mem_cons.mp hm with h1 | h1
        · exact h1.symm
        · exact absurd h1 hFks
      rw [hkF] at h
      rw [runKeys_cons_val vs boolStep F ks e v hv hne] at h
      simp only [boolStep, UpResult.andThen] at h
      have hpres := runKeys_preserves vs boolStep F
        (fun e q w hq => boolStep_frame e q w F hq) ks
        (setField e F (Value.bool (boolCoerce v))) (Or.inl hFks)
      rw [h] at hpres
      calc e2 F = (UpResult.ok e2).entity F := rfl
        _ = setField e F (Value.bool (boolCoerce v)) F := hpres
        _ = Value.bool (boolCoerce v) := setField_self _ _ _

theorem dictLookup_dictSet_self (m : List (String × String)) (k v : String) :
    dictLookup (dictSet m k v) k = Option.some v := by
  induction m with
  | nil => simp [dictSet, dictLookup]
  | cons p rest ih =>
    by_cases hp : p.1 = k
    · simp [dictSet, hp, dictLookup]
    · simp only [dictSet, if_neg hp, dictLookup]
      exact ih

theorem dictLookup_dictSet_ne (m : List (String × String)) (k v q : String) (h : q ≠ k) :
    dictLookup (dictSet m k v) q = dictLookup m q := by
  induction m with
  | nil =>
    simp only [dictSet, dictLookup]
    rw [if_neg (fun hh => h hh.symm)]
  | cons p rest ih =>
    by_cases hp : p.1 = k
    · simp only [dictSet, if_pos hp, dictLookup]
      rw [if_neg (fun hh => h hh.symm), if_neg (by rw [hp]; exact fun hh => h hh.symm)]
    · simp only [dictSet, if_neg hp, dictLookup]
      by_cases hq : p.1 = q
      · rw [if_pos hq, if_pos hq]
      · rw [if_neg hq, if_neg hq, ih]

theorem dictLookup_none_of_not_mem (m : List (String × String)) (q : String)
    (h : q ∉ m.map Prod.fst) : dictLookup m q = Option.none := by
  induction m with
  | nil => rfl
  | cons p rest ih =>
    have h1 : ¬p.1 = q := by
      intro hh
      exact h (by simp [hh.symm])
    have h2 : q ∉ rest.map Prod.fst := fun hm => h (by simp [hm])
    simp only [dictLookup]
    rw [if_neg h1, ih h2]

theorem dictLookup_dictUpdate (inc : List (String × String)) (hnd : (inc.map Prod.fst).Nodup) :
    ∀ (m : List (String × String)) (q : String),
      dictLookup (dictUpdate m inc) q =
        match dictLookup inc q with
        | Option.some t => Option.some t
        | Option.none => dictLookup m q := by
  induction inc with
  | nil => intro m q; rfl
  | cons p rest ih =>
    intro m q
    have hnd2 := List.nodup_cons.mp (show (p.1 :: rest.map Prod.fst).Nodup from hnd)
    have hstep : dictUpdate m (p :: rest) = dictUpdate (dictSet m p.1 p.2) rest := rfl
    rw [hstep, ih hnd2.2]
    by_cases hq : q = p.1
    · rw [hq]
      rw [dictLookup_none_of_not_mem rest p.1 hnd2.1]
      simp only [dictLookup_dictSet_self, dictLookup, if_pos rfl]
      simp
    · rw [dictLookup_dictSet_ne m p.1 p.2 q hq]
      have hr : dictLookup (p :: rest) q = dictLookup rest q := by
        simp only [dictLookup]
        rw [if_neg (fun hh => hq hh.symm)]
      rw [hr]

theorem update_ok_stages (sch : Schema) (vs : InputMap) (e e6 : Entity)
    (h : Model.update sch (Option.some vs) e = UpResult.ok e6) :
    ∃ e1 e2 e3 e4 e5,
      runKeys vs unicodeStep sch.unicode_keys e = UpResult.ok e1 ∧
      runKeys vs intStep sch.int_keys e1 = UpResult.ok e2 ∧
      runKeys vs datetimeStep sch.datetime_keys e2 = UpResult.ok e3 ∧
      runKeys vs boolStep sch.bool_keys e3 = UpResult.ok e4 ∧
      runKeys vs localizedStep sch.localized_keys e4 = UpResult.ok e5 ∧
      runKeys vs jsonStep sch.json_keys e5 = UpResult.ok e6 := by
  simp only [Model.update] at h
  obtain ⟨e1, h1, h⟩ := andThen_ok _ _ _ h
  obtain ⟨e2, h2, h⟩ := andThen_ok _ _ _ h
  obtain ⟨e3, h3, h⟩ := andThen_ok _ _ _ h
  obtain ⟨e4, h4, h⟩ := andThen_ok _ _ _ h
  obtain ⟨e5, h5, h⟩ := andThen_ok _ _ _ h
  exact ⟨e1, e2, e3, e4, e5, h1, h2, h3, h4, h5, h⟩

theorem update_entity_preserves (sch : Schema) (vs : InputMap) (e : Entity) (f : String)
    (h : (f ∉ sch.unicode_keys ∧ f ∉ sch.int_keys ∧ f ∉ sch.datetime_keys ∧
          f ∉ sch.bool_keys ∧ f ∉ sch.localized_keys ∧ f ∉ sch.json_keys) ∨
         vs f = Option.none ∨ vs f = Option.some Value.none) :
    ((Model.update sch (Option.some vs) e).entity) f = e f := by
  have hu : f ∉ sch.unicode_keys ∨ vs f = Option.none ∨ vs f = Option.some Value.none := by
    rcases h with ⟨h1, _, _, _, _, _⟩ | h2
    · exact Or.inl h1
    · exact Or.inr h2
  have hi : f ∉ sch.int_keys ∨ vs f = Option.none ∨ vs f = Option.some Value.none := by
    rcases h with ⟨_, h1, _, _, _, _⟩ | h2
    · exact Or.inl h1
    · exact Or.inr h2
  have hd : f ∉ sch.datetime_keys ∨ vs f = Option.none ∨ vs f = Option.some Value.none := by
    rcases h with ⟨_, _, h1, _, _, _⟩ | h2
    · exact Or.inl h1
    · exact Or.inr h2
  have hb : f ∉ sch.bool_keys ∨ vs f = Option.none ∨ vs f = Option.some Value.none := by
    rcases h with ⟨_, _, _, h1, _, _⟩ | h2
    · exact Or.inl h1
    · exact Or.inr h2
  have hl : f ∉ sch.localized_keys ∨ vs f = Option.none ∨ vs f = Option.some Value.none := by
    rcases h with ⟨_, _, _, _, h1, _⟩ | h2
    · exact Or.inl h1
    · exact Or.inr h2
  have hj : f ∉ sch.json_keys ∨ vs f = Option.none ∨ vs f = Option.some Value.none := by
    rcases h with ⟨_, _, _, _, _, h1⟩ | h2
    · exact Or.inl h1
    · exact Or.inr h2
  have pjson : ∀ e5 : Entity, ((runKeys vs jsonStep sch.json_keys e5).entity) f = e5 f :=
    fun e5 => runKeys_preserves vs jsonStep f
      (fun a b c hbc => jsonStep_frame a b c f hbc) sch.json_keys e5 hj
  have ploc : ∀ e4 : Entity,
      ((UpResult.andThen (runKeys vs localizedStep sch.localized_keys e4)
        (fun e5 => runKeys vs jsonStep sch.json_keys e5)).entity) f = e4 f := by
    intro e4
    rw [andThen_entity _ _ f pjson]
    exact runKeys_preserves vs localizedStep f
      (fun a b c hbc => localizedStep_frame a b c f hbc) sch.localized_keys e4 hl
  have pbool : ∀ e3 : Entity,
      ((UpResult.andThen (runKeys vs boolStep sch.bool_keys e3)
        (fun e4 => UpResult.andThen (runKeys vs localizedStep sch.localized_keys e4)
          (fun e5 => runKeys vs jsonStep sch.json_keys e5))).entity) f = e3 f := by
    intro e3
    rw [andThen_entity _ _ f ploc]
    exact runKeys_preserves vs boolStep f
      (fun a b c hbc => boolStep_frame a b c f hbc) sch.bool_keys e3 hb
  have pdt : ∀ e2 : Entity,
      ((UpResult.andThen (runKeys vs datetimeStep sch.datetime_keys e2)
        (fun e3 => UpResult.andThen (runKeys vs boolStep sch.bool_keys e3)
          (fun e4 => UpResult.andThen (runKeys vs localizedStep sch.localized_keys e4)
            (fun e5 => runKeys vs jsonStep sch.json_keys e5)))).entity) f = e2 f := by
    intro e2
    rw [andThen_entity _ _ f pbool]
    exact runKeys_preserves vs datetimeStep f
      (fun a b c hbc => datetimeStep_frame a b c f hbc) sch.datetime_keys e2 hd
  have pint : ∀ e1 : Entity,
      ((UpResult.andThen (runKeys vs intStep sch.int_keys e1)
        (fun e2 => UpResult.andThen (runKeys vs datetimeStep sch.datetime_keys e2)
          (fun e3 => UpResult.andThen (runKeys vs boolStep sch.bool_keys e3)
            (fun e4 => UpResult.andThen (runKeys vs localizedStep sch.localized_keys e4)
              (fun e5 => runKeys vs jsonStep sch.json_keys e5))))).entity) f = e1 f := by
    intro e1
    rw [andThen_entity _ _ f pdt]
    exact runKeys_preserves vs intStep f
      (fun a b c hbc => intStep_frame a b c f hbc) sch.int_keys e1 hi
  simp only [Model.update]
  rw [andThen_entity _ _ f pint]
  exact runKeys_preserves vs unicodeStep f
    (fun a b c hbc => unicodeStep_frame a b c f hbc) sch.unicode_keys e hu

theorem localizedStep_at_dict (e : Entity) (k : String) (pm inc : List (String × String))
    (hpm : e k = Value.dict pm) (hne : pm ≠ []) :
    localizedStep e k (Value.dict inc) =
      UpResult.ok (setField e k (Value.dict (dictUpdate pm inc))) := by
  have hemp : pm.isEmpty = false := by
    cases pm with
    | nil => exact absurd rfl hne
    | cons p rest => rfl
  unfold localizedStep
  rw [hpm]
  simp [hemp]

theorem localizedStep_at_none (e : Entity) (k : String) (v : Value)
    (h : e k = Value.none ∨ e k = Value.dict []) :
    localizedStep e k v = UpResult.ok (setField e k v) := by
  unfold localizedStep
  rcases h with h | h
  · rw [h]
  · rw [h]
    simp

/-! Claim theorems. -/

/-- C4: for every entity, serializing with a requested field-name set
whose difference with the public set is non-empty fails with the
unknown-field error (`KeyError` in the source) carrying exactly the
offending names `req \ pub`; no field mapping is returned, and the
operation only reads the entity, so the entity is unmodified. -/
theorem model_dict_unknown_keys_error (pub req : Finset String) (e : Entity)
    (h : req \ pub ≠ ∅) :
    Model.dict pub req e = Except.error (req \ pub) := by
  have hreq : req ≠ ∅ := by
    intro h0
    rw [h0] at h
    simp at h
  simp only [Model.dict]
  rw [if_neg hreq, if_neg h]

theorem model_dict_unknown_keys_error_w :
    Model.dict ({"username", "name"} : Finset String) ({"password"} : Finset String)
      wEntityNone = Except.error ({"password"} : Finset String) := by
  have h := model_dict_unknown_keys_error ({"username", "name"} : Finset String)
    ({"password"} : Finset String) wEntityNone (by decide)
  have hs : ({"password"} : Finset String) \ ({"username", "name"} : Finset String)
      = ({"password"} : Finset String) := by decide
  rw [hs] at h
  exact h

/-- C5: serializing with an empty requested set returns the mapping over
exactly the declared public field set, each key valued by the current
value held by the entity; a non-empty requested subset of the public set yields the
mapping over exactly the requested names. -/
theorem model_dict_returns_requested (pub req : Finset String) (e : Entity) :
    (req = ∅ → Model.dict pub req e = Except.ok (pub, e)) ∧
    (req ≠ ∅ → req ⊆ pub → Model.dict pub req e = Except.ok (req, e)) := by
  constructor
  · intro h0
    subst h0
    simp [Model.dict]
  · intro hne hsub
    have hd : req \ pub = ∅ := Finset.sdiff_eq_empty_iff_subset.mpr hsub
    have hint : req ∩ pub = req := Finset.inter_eq_left.mpr hsub
    simp only [Model.dict]
    rw [if_neg hne, if_pos hd, hint]

theorem model_dict_returns_requested_w :
    Model.dict ({"username", "name"} : Finset String) (∅ : Finset String) wEntityNone
        = Except.ok (({"username", "name"} : Finset String), wEntityNone) ∧
    Model.dict ({"username", "name"} : Finset String) ({"name"} : Finset String) wEntityNone
        = Except.ok (({"name"} : Finset String), wEntityNone) :=
  ⟨(model_dict_returns_requested _ _ _).1 rfl,
   (model_dict_returns_requested _ _ _).2 (by decide) (by decide)⟩

/-- C8: the whistleblower access of an internal tip is revoked exactly when no
`WhistleblowerTip` row in the current relational state references it, and
inserting a referencing row flips the computation to `false` with no flag
write: the result is recomputed from the row set alone. -/
theorem is_wb_access_revoked_iff (db : List WhistleblowerTip) (tid : String) :
    (InternalTip.is_wb_access_revoked db tid = true ↔
      ∀ w ∈ db, w.internaltip_id ≠ tid) ∧
    (∀ w : WhistleblowerTip, w.internaltip_id = tid →
      InternalTip.is_wb_access_revoked (w :: db) tid = false) := by
  constructor
  · unfold InternalTip.is_wb_access_revoked InternalTip.whistleblowertip
    rw [Option.isNone_iff_eq_none, List.find?_eq_none]
    constructor
    · intro h w hw heq
      exact absurd (by rw [heq]; exact beq_self_eq_true tid) (h w hw)
    · intro h w hw
      simp only [beq_iff_eq]
      exact h w hw
  · intro w hw
    unfold InternalTip.is_wb_access_revoked InternalTip.whistleblowertip
    simp [List.find?, hw]

theorem is_wb_access_revoked_iff_w :
    InternalTip.is_wb_access_revoked [] ("t1") = true ∧
    InternalTip.is_wb_access_revoked [WhistleblowerTip.mk ("w") ("t1") ("r") 0] ("t1") = false :=
  ⟨(is_wb_access_revoked_iff [] ("t1")).1.mpr (by simp),
   (is_wb_access_revoked_iff [] ("t1")).2 (WhistleblowerTip.mk ("w") ("t1") ("r") 0) rfl⟩

/-- C9: the whistleblower revocation deadline equals the stored
last-access timestamp plus the configured retention window in days; the
computation depends on the row only through `wb_last_access` (so changing
the configured window never touches the stored timestamp), and changing
the window changes the computed deadline. -/
theorem wb_revoke_access_date_spec (ttl : Int) (t : InternalTipRow) :
    (InternalTip.wb_revoke_access_date ttl t = t.wb_last_access + ttl * 86400) ∧
    (∀ u : InternalTipRow, u.wb_last_access = t.wb_last_access →
      InternalTip.wb_revoke_access_date ttl u = InternalTip.wb_revoke_access_date ttl t) ∧
    (∀ ttl2 : Int, ttl ≠ ttl2 →
      InternalTip.wb_revoke_access_date ttl t ≠ InternalTip.wb_revoke_access_date ttl2 t) := by
  refine ⟨rfl, ?_, ?_⟩
  · intro u hu
    unfold InternalTip.wb_revoke_access_date
    rw [hu]
  · intro ttl2 hne h
    apply hne
    unfold InternalTip.wb_revoke_access_date timedeltaDays at h
    omega

theorem wb_revoke_access_date_spec_w :
    InternalTip.wb_revoke_access_date 90 (InternalTipRow.mk ("t1") 1000) = 1000 + 90 * 86400 ∧
    InternalTip.wb_revoke_access_date 90 (InternalTipRow.mk ("t1") 1000) ≠
      InternalTip.wb_revoke_access_date 91 (InternalTipRow.mk ("t1") 1000) :=
  ⟨(wb_revoke_access_date_spec 90 (InternalTipRow.mk ("t1") 1000)).1,
   (wb_revoke_access_date_spec 90 (InternalTipRow.mk ("t1") 1000)).2.2 91 (by decide)⟩

/-- C10: `FieldAttr.update` with a non-null input mapping that omits any
of the keys `field_id`, `name`, `type`, `value` raises `KeyError`:
unlike the generic engine, absence of a key is not a no-op. -/
theorem fieldattr_update_missing_key (vs : InputMap) (e : Entity)
    (h : vs ("field_id") = Option.none ∨ vs ("name") = Option.none ∨
         vs ("type") = Option.none ∨ vs ("value") = Option.none) :
    (FieldAttr.update (Option.some vs) e).isOk = false ∧
    (FieldAttr.update (Option.some vs) e).exc = Option.some ("KeyError") := by
  simp only [FieldAttr.update]
  cases h1 : vs ("field_id") with
  | none => exact ⟨rfl, rfl⟩
  | some vfid =>
    cases h2 : vs ("name") with
    | none => exact ⟨rfl, rfl⟩
    | some vname =>
      cases h3 : vs ("type") with
      | none => exact ⟨rfl, rfl⟩
      | some vtype =>
        cases h4 : vs ("value") with
        | none =>
          simp only [setField_self, Value.str.injEq]
          by_cases hc : pyUnicode vtype = ("localized")
          · rw [if_pos hc]
            exact ⟨rfl, rfl⟩
          · rw [if_neg hc]
            exact ⟨rfl, rfl⟩
        | some vval =>
          rcases h with h | h | h | h
          · rw [h] at h1; cases h1
          · rw [h] at h2; cases h2
          · rw [h] at h3; cases h3
          · rw [h] at h4; cases h4

theorem fieldattr_update_missing_key_w :
    (FieldAttr.update (Option.some wInputFAMissing) wEntityNone).isOk = false ∧
    (FieldAttr.update (Option.some wInputFAMissing) wEntityNone).exc = Option.some ("KeyError") :=
  fieldattr_update_missing_key wInputFAMissing wEntityNone (Or.inr (Or.inr (Or.inr rfl)))

/-- C1 counterexample: on a `Context` whose input carries a valid
`questionnaire_id` and an uncoercible `tip_timetolive` (coercing the text `abc`
raises `ValueError`), the update fails, yet `questionnaire_id` no longer
equals its pre-call value: the failed update committed a partial
mutation, contradicting the claimed atomicity. -/
theorem update_coercion_failure_partial_cex :
    (Model.update Context_schema (Option.some wInputCoerceFail) wEntityContext).isOk = false ∧
    ((Model.update Context_schema (Option.some wInputCoerceFail) wEntityContext).entity)
        ("questionnaire_id") ≠ wEntityContext ("questionnaire_id") := by
  constructor
  · decide
  · decide

/-- C1 (amended): a coercion or merge failure aborts the bucket walk at
the failing field without rolling back: fields belonging to none of the
five buckets processed up to the last fallible loop (unicode, int,
datetime, bool, localized) still equal their pre-call values after a
failed update — in particular the opaque-structured (json) bucket is
never reached on failure — while fields assigned before the failure may
keep their new values (see the counterexample). -/
theorem update_failure_preserves_pending (sch : Schema) (vs : InputMap) (e : Entity) (f : String)
    (hfail : (Model.update sch (Option.some vs) e).isOk = false)
    (hu : f ∉ sch.unicode_keys) (hi : f ∉ sch.int_keys) (hd : f ∉ sch.datetime_keys)
    (hb : f ∉ sch.bool_keys) (hl : f ∉ sch.localized_keys) :
    ((Model.update sch (Option.some vs) e).entity) f = e f := by
  simp only [Model.update] at hfail ⊢
  have pu := runKeys_preserves vs unicodeStep f
    (fun a b c hbc => unicodeStep_frame a b c f hbc) sch.unicode_keys e (Or.inl hu)
  cases h1 : runKeys vs unicodeStep sch.unicode_keys e with
  | err e1 s =>
    rw [h1] at pu
    simp only [UpResult.andThen, UpResult.entity] at pu ⊢
    exact pu
  | ok e1 =>
    rw [h1] at pu hfail
    simp only [UpResult.andThen, UpResult.entity] at pu hfail ⊢
    have pi := runKeys_preserves vs intStep f
      (fun a b c hbc => intStep_frame a b c f hbc) sch.int_keys e1 (Or.inl hi)
    cases h2 : runKeys vs intStep sch.int_keys e1 with
    | err e2 s =>
      rw [h2] at pi
      simp only [UpResult.andThen, UpResult.entity] at pi ⊢
      rw [pi]
      exact pu
    | ok e2 =>
      rw [h2] at pi hfail
      simp only [UpResult.andThen, UpResult.entity] at pi hfail ⊢
      have pd := runKeys_preserves vs datetimeStep f
        (fun a b c hbc => datetimeStep_frame a b c f hbc) sch.datetime_keys e2 (Or.inl hd)
      cases h3 : runKeys vs datetimeStep sch.datetime_keys e2 with
      | err e3 s =>
        rw [h3] at pd
        simp only [UpResult.andThen, UpResult.entity] at pd ⊢
        rw [pd, pi]
        exact pu
      | ok e3 =>
        rw [h3] at pd hfail
        simp only [UpResult.andThen, UpResult.entity] at pd hfail ⊢
        have pb := runKeys_preserves vs boolStep f
          (fun a b c hbc => boolStep_frame a b c f hbc) sch.bool_keys e3 (Or.inl hb)
        cases h4 : runKeys vs boolStep sch.bool_keys e3 with
        | err e4 s =>
          rw [h4] at pb
          simp only [UpResult.andThen, UpResult.entity] at pb ⊢
          rw [pb, pd, pi]
          exact pu
        | ok e4 =>
          rw [h4] at pb hfail
          simp only [UpResult.andThen, UpResult.entity] at pb hfail ⊢
          have pl := runKeys_preserves vs localizedStep f
            (fun a b c hbc => localizedStep_frame a b c f hbc) sch.localized_keys e4 (Or.inl hl)
          cases h5 : runKeys vs localizedStep sch.localized_keys e4 with
          | err e5 s =>
            rw [h5] at pl
            simp only [UpResult.andThen, UpResult.entity] at pl ⊢
            rw [pl, pb, pd, pi]
            exact pu
          | ok e5 =>
            rw [h5] at hfail
            simp only [UpResult.andThen, UpResult.entity] at hfail
            have htot := runKeys_total vs jsonStep (fun a b c => rfl) sch.json_keys e5
            rw [htot] at hfail
            cases hfail

theorem update_failure_preserves_pending_w :
    (Model.update ApplicationData_schema (Option.some wInputAppData) wEntityNone).isOk = false ∧
    ((Model.update ApplicationData_schema (Option.some wInputAppData) wEntityNone).entity)
        ("default_questionnaire") = Value.none := by
  refine ⟨by decide, ?_⟩
  have h := update_failure_preserves_pending ApplicationData_schema wInputAppData wEntityNone
    ("default_questionnaire") (by decide) (by decide) (by decide) (by decide) (by decide) (by decide)
  simpa using h

/-- C7 counterexample: the field-attribute entity is an entity kind whose
update operation does modify a field that the input maps to an explicit
null: `FieldAttr.update` coerces the null to the text `None` and
assigns it, so `field_id` does not keep its pre-call value. -/
theorem fieldattr_null_modifies_cex :
    wInputFANull ("field_id") = Option.some Value.none ∧
    ((FieldAttr.update (Option.some wInputFANull) wEntityFA).entity) ("field_id")
      ≠ wEntityFA ("field_id") :=
  ⟨rfl, by decide⟩

/-- C7 (amended): for every entity kind whose partial update is the
generic engine `Model.update` (every kind except the field-attribute
entity, whose override coerces explicit nulls to the text `None`),
the update modifies only fields that are listed in a declared bucket,
present in the input, and mapped to a non-null value; any field outside
all buckets, absent from the input, or mapped to an explicit null — in
particular the identifier, which no model lists in a bucket — equals its
pre-call value afterwards, whether the update succeeds or fails. -/
theorem update_frame (sch : Schema) (vs : InputMap) (e : Entity) (f : String)
    (h : (f ∉ sch.unicode_keys ∧ f ∉ sch.int_keys ∧ f ∉ sch.datetime_keys ∧
          f ∉ sch.bool_keys ∧ f ∉ sch.localized_keys ∧ f ∉ sch.json_keys) ∨
         vs f = Option.none ∨ vs f = Option.some Value.none) :
    ((Model.update sch (Option.some vs) e).entity) f = e f :=
  update_entity_preserves sch vs e f h

theorem update_frame_w :
    ((Model.update Context_schema (Option.some wInputNullName) wEntityContext).entity) ("name")
      = Value.dict [("en", "a")] ∧
    ((Model.update Context_schema (Option.some wInputNullName) wEntityContext).entity) ("id")
      = Value.none := by
  constructor
  · have h := update_frame Context_schema wInputNullName wEntityContext ("name")
      (Or.inr (Or.inr rfl))
    simpa using h
  · have h := update_frame Context_schema wInputNullName wEntityContext ("id")
      (Or.inl (by refine ⟨by decide, by decide, by decide, by decide, by decide, by decide⟩))
    simpa using h

/-- C6: for a field in the boolean bucket (and in no later-processed
bucket), a successful update assigns `True` for the literal token
`true`, `False` for the literal `false` (case-sensitively), and the
Python truthiness of the value otherwise — so the text `no`, being a
non-empty string, is assigned as `True`. -/
theorem update_bool_coercion (sch : Schema) (vs : InputMap) (e : Entity) (F : String) (v : Value)
    (hmem : F ∈ sch.bool_keys) (hl : F ∉ sch.localized_keys) (hj : F ∉ sch.json_keys)
    (hv : vs F = Option.some v) (hne : v ≠ Value.none)
    (hok : (Model.update sch (Option.some vs) e).isOk = true) :
    (v = Value.str ("true") →
      ((Model.update sch (Option.some vs) e).entity) F = Value.bool true) ∧
    (v = Value.str ("false") →
      ((Model.update sch (Option.some vs) e).entity) F = Value.bool false) ∧
    (v ≠ Value.str ("true") → v ≠ Value.str ("false") →
      ((Model.update sch (Option.some vs) e).entity) F = Value.bool (pyTruthy v)) := by
  obtain ⟨e6, h6⟩ := (UpResult.isOk_iff _).mp hok
  obtain ⟨e1, e2, e3, e4, e5, h1, h2, h3, h4, h5, hjs⟩ := update_ok_stages sch vs e e6 h6
  have hb4 : e4 F = Value.bool (boolCoerce v) :=
    runKeys_bool_mem vs F v hv hne sch.bool_keys e3 e4 hmem h4
  have hl5 : e5 F = e4 F := by
    have hp := runKeys_preserves vs localizedStep F
      (fun a b c hbc => localizedStep_frame a b c F hbc) sch.localized_keys e4 (Or.inl hl)
    rw [h5] at hp
    exact hp
  have hj6 : e6 F = e5 F := by
    have hp := runKeys_preserves vs jsonStep F
      (fun a b c hbc => jsonStep_frame a b c F hbc) sch.json_keys e5 (Or.inl hj)
    rw [hjs] at hp
    exact hp
  have hfinal : ((Model.update sch (Option.some vs) e).entity) F = Value.bool (boolCoerce v) := by
    rw [h6]
    show e6 F = Value.bool (boolCoerce v)
    rw [hj6, hl5, hb4]
  refine ⟨?_, ?_, ?_⟩
  · intro hvt
    rw [hfinal, hvt]
    simp [boolCoerce]
  · intro hvf
    rw [hfinal, hvf]
    simp [boolCoerce]
  · intro hnt hnf
    rw [hfinal]
    simp [boolCoerce, hnt, hnf]

theorem update_bool_coercion_w :
    ((Model.update User_schema (Option.some wInputBoolNo) wEntityNone).entity) ("deletable")
      = Value.bool true := by
  have h := update_bool_coercion User_schema wInputBoolNo wEntityNone ("deletable")
    (Value.str ("no")) (by decide) (by decide) (by decide) rfl (by decide) (by decide)
  have h3 := h.2.2 (by decide) (by decide)
  simpa using h3

/-- C2: for a field in the localized bucket (only), with an incoming
dict: if the entity currently holds a non-empty dict, a successful
update assigns the key-by-key merge `dictUpdate` (incoming languages
win, languages only in the current dict are preserved — the lookup
characterization is the last conjunct); if it currently holds nothing
(`None` or an empty dict), the incoming dict is assigned outright. -/
theorem update_localized_merge (sch : Schema) (vs : InputMap) (e : Entity) (F : String)
    (inc : List (String × String))
    (hmem : F ∈ sch.localized_keys) (hnd : sch.localized_keys.Nodup)
    (hu : F ∉ sch.unicode_keys) (hi : F ∉ sch.int_keys) (hd : F ∉ sch.datetime_keys)
    (hb : F ∉ sch.bool_keys) (hj : F ∉ sch.json_keys)
    (hv : vs F = Option.some (Value.dict inc))
    (hok : (Model.update sch (Option.some vs) e).isOk = true) :
    (∀ pm, e F = Value.dict pm → pm ≠ [] →
      ((Model.update sch (Option.some vs) e).entity) F = Value.dict (dictUpdate pm inc)) ∧
    ((e F = Value.none ∨ e F = Value.dict []) →
      ((Model.update sch (Option.some vs) e).entity) F = Value.dict inc) ∧
    ((inc.map Prod.fst).Nodup → ∀ pm q,
      dictLookup (dictUpdate pm inc) q =
        match dictLookup inc q with
        | Option.some t => Option.some t
        | Option.none => dictLookup pm q) := by
  obtain ⟨e6, h6⟩ := (UpResult.isOk_iff _).mp hok
  obtain ⟨e1, e2, e3, e4, e5, h1, h2, h3, h4, h5, hjs⟩ := update_ok_stages sch vs e e6 h6
  have p1 : e1 F = e F := by
    have hp := runKeys_preserves vs unicodeStep F
      (fun a b c hbc => unicodeStep_frame a b c F hbc) sch.unicode_keys e (Or.inl hu)
    rw [h1] at hp
    exact hp
  have p2 : e2 F = e1 F := by
    have hp := runKeys_preserves vs intStep F
      (fun a b c hbc => intStep_frame a b c F hbc) sch.int_keys e1 (Or.inl hi)
    rw [h2] at hp
    exact hp
  have p3 : e3 F = e2 F := by
    have hp := runKeys_preserves vs datetimeStep F
      (fun a b c hbc => datetimeStep_frame a b c F hbc) sch.datetime_keys e2 (Or.inl hd)
    rw [h3] at hp
    exact hp
  have p4 : e4 F = e3 F := by
    have hp := runKeys_preserves vs boolStep F
      (fun a b c hbc => boolStep_frame a b c F hbc) sch.bool_keys e3 (Or.inl hb)
    rw [h4] at hp
    exact hp
  obtain ⟨l1, l2, hsplit⟩ := List.append_of_mem hmem
  have hnds : (l1 ++ F :: l2).Nodup := by
    rw [hsplit] at hnd
    exact hnd
  have hFl1 : F ∉ l1 := by
    intro hmem1
    have hdisj := (List.nodup_append.mp hnds).2.2
    exact hdisj hmem1 (List.mem_cons_self F l2)
  have hFl2 : F ∉ l2 := (List.nodup_cons.mp (List.nodup_append.mp hnds).2.1).1
  rw [hsplit] at h5
  obtain ⟨emid, hm1, hm2⟩ := runKeys_append_ok vs localizedStep F
    (fun a b c hbc => localizedStep_frame a b c F hbc) l1 (F :: l2) hFl1 e4 e5 h5
  rw [runKeys_cons_val vs localizedStep F l2 emid (Value.dict inc) hv
    (fun hx => Value.noConfusion hx)] at hm2
  have hemid : emid F = e F := by
    rw [hm1, p4, p3, p2, p1]
  have hl2frame : ∀ em2 : Entity, runKeys vs localizedStep l2 em2 = UpResult.ok e5 →
      e5 F = em2 F := by
    intro em2 hr
    have hp := runKeys_preserves vs localizedStep F
      (fun a b c hbc => localizedStep_frame a b c F hbc) l2 em2 (Or.inl hFl2)
    rw [hr] at hp
    exact hp
  have p6 : e6 F = e5 F := by
    have hp := runKeys_preserves vs jsonStep F
      (fun a b c hbc => jsonStep_frame a b c F hbc) sch.json_keys e5 (Or.inl hj)
    rw [hjs] at hp
    exact hp
  refine ⟨?_, ?_, ?_⟩
  · intro pm hpm hpmne
    have hstep := localizedStep_at_dict emid F pm inc (by rw [hemid]; exact hpm) hpmne
    rw [hstep] at hm2
    simp only [UpResult.andThen] at hm2
    have h5F := hl2frame _ hm2
    rw [h6]
    show e6 F = Value.dict (dictUpdate pm inc)
    rw [p6, h5F, setField_self]
  · intro hnothing
    have hstep := localizedStep_at_none emid F (Value.dict inc) (by
      rcases hnothing with hn | hn
      · exact Or.inl (by rw [hemid]; exact hn)
      · exact Or.inr (by rw [hemid]; exact hn))
    rw [hstep] at hm2
    simp only [UpResult.andThen] at hm2
    have h5F := hl2frame _ hm2
    rw [h6]
    show e6 F = Value.dict inc
    rw [p6, h5F, setField_self]
  · intro hincnd pm q
    exact dictLookup_dictUpdate inc hincnd pm q

theorem update_localized_merge_w :
    ((Model.update Context_schema (Option.some wInputMerge) wEntityContext).entity) ("name")
      = Value.dict [("en", "a"), ("it", "b")] := by
  have h := update_localized_merge Context_schema wInputMerge wEntityContext ("name")
    [("it", "b")] (by decide) (by decide) (by decide) (by decide) (by decide) (by decide)
    (by decide) rfl (by decide)
  have hm := h.1 [("en", "a")] rfl (by decide)
  simpa using hm

/-- C3: `FieldAttr.update` always coerces the `field_id`, `name` and
`type` (kind) sub-fields to text; the treatment of `value` branches on
the kind read at update time (the kind just assigned from the input): if
it equals the literal `localized`, `value` is merged under the
localized-dict merge rule (so two successive localized updates
accumulate languages — see the witness); for any other kind, `value` is
coerced to plain text, discarding a dict form (its repr is stored). -/
theorem fieldattr_update_dynamic (vs : InputMap) (e : Entity)
    (vfid vname vtype vval : Value)
    (h1 : vs ("field_id") = Option.some vfid) (h2 : vs ("name") = Option.some vname)
    (h3 : vs ("type") = Option.some vtype) (h4 : vs ("value") = Option.some vval) :
    (((FieldAttr.update (Option.some vs) e).entity) ("field_id") = Value.str (pyUnicode vfid)) ∧
    (((FieldAttr.update (Option.some vs) e).entity) ("name") = Value.str (pyUnicode vname)) ∧
    (((FieldAttr.update (Option.some vs) e).entity) ("type") = Value.str (pyUnicode vtype)) ∧
    (pyUnicode vtype ≠ ("localized") →
      (FieldAttr.update (Option.some vs) e).isOk = true ∧
      ((FieldAttr.update (Option.some vs) e).entity) ("value") = Value.str (pyUnicode vval)) ∧
    (pyUnicode vtype = ("localized") → ∀ pm inc, vval = Value.dict inc →
      e ("value") = Value.dict pm → pm ≠ [] →
      ((FieldAttr.update (Option.some vs) e).entity) ("value")
        = Value.dict (dictUpdate pm inc)) ∧
    (pyUnicode vtype = ("localized") →
      (e ("value") = Value.none ∨ e ("value") = Value.dict []) →
      ((FieldAttr.update (Option.some vs) e).entity) ("value") = vval) := by
  simp only [FieldAttr.update]
  rw [h1, h2, h3, h4]
  simp only [setField_self, Value.str.injEq]
  by_cases hT : pyUnicode vtype = ("localized")
  · rw [if_pos hT]
    refine ⟨?_, ?_, ?_, ?_, ?_, ?_⟩
    · rw [localizedStep_frame _ _ _ _ (by decide)]
      simp [setField]
    · rw [localizedStep_frame _ _ _ _ (by decide)]
      simp [setField]
    · rw [localizedStep_frame _ _ _ _ (by decide)]
      simp [setField]
    · intro hne
      exact absurd hT hne
    · intro _ pm inc hvv hpm hpmne
      have hval3 : (setField (setField (setField e ("field_id") (Value.str (pyUnicode vfid)))
          ("name") (Value.str (pyUnicode vname))) ("type") (Value.str (pyUnicode vtype)))
            ("value") = e ("value") := by
        rw [setField_ne _ _ _ _ (by decide), setField_ne _ _ _ _ (by decide),
          setField_ne _ _ _ _ (by decide)]
      rw [hvv, localizedStep_at_dict _ _ pm inc (hval3.trans hpm) hpmne]
      simp only [UpResult.entity, setField_self]
    · intro _ hnothing
      have hval3 : (setField (setField (setField e ("field_id") (Value.str (pyUnicode vfid)))
          ("name") (Value.str (pyUnicode vname))) ("type") (Value.str (pyUnicode vtype)))
            ("value") = e ("value") := by
        rw [setField_ne _ _ _ _ (by decide), setField_ne _ _ _ _ (by decide),
          setField_ne _ _ _ _ (by decide)]
      have hn2 : (setField (setField (setField e ("field_id") (Value.str (pyUnicode vfid)))
          ("name") (Value.str (pyUnicode vname))) ("type") (Value.str (pyUnicode vtype)))
            ("value") = Value.none ∨
          (setField (setField (setField e ("field_id") (Value.str (pyUnicode vfid)))
          ("name") (Value.str (pyUnicode vname))) ("type") (Value.str (pyUnicode vtype)))
            ("value") = Value.dict [] := by
        rcases hnothing with hn | hn
        · exact Or.inl (hval3.trans hn)
        · exact Or.inr (hval3.trans hn)
      rw [localizedStep_at_none _ _ _ hn2]
      simp only [UpResult.entity, setField_self]
  · rw [if_neg hT]
    refine ⟨?_, ?_, ?_, ?_, ?_, ?_⟩
    · simp [UpResult.entity, setField]
    · simp [UpResult.entity, setField]
    · simp [UpResult.entity, setField]
    · intro _
      refine ⟨rfl, ?_⟩
      simp only [UpResult.entity, setField_self]
    · intro hT2
      exact absurd hT2 hT
    · intro hT2
      exact absurd hT2 hT

theorem fieldattr_update_dynamic_w :
    ((FieldAttr.update (Option.some wInputFA1) wEntityNone).entity) ("value")
      = Value.dict [("en", "x")] ∧
    ((FieldAttr.update (Option.some wInputFA2)
        ((FieldAttr.update (Option.some wInputFA1) wEntityNone).entity)).entity) ("value")
      = Value.dict [("en", "x"), ("it", "y")] := by
  constructor
  · have h := fieldattr_update_dynamic wInputFA1 wEntityNone (Value.str ("f1"))
      (Value.str ("n")) (Value.str ("localized")) (Value.dict [("en", "x")]) rfl rfl rfl rfl
    exact h.2.2.2.2.2 (by decide) (Or.inl rfl)
  · have h := fieldattr_update_dynamic wInputFA2
      ((FieldAttr.update (Option.some wInputFA1) wEntityNone).entity) (Value.str ("f1"))
      (Value.str ("n")) (Value.str ("localized")) (Value.dict [("it", "y")]) rfl rfl rfl rfl
    have hm := h.2.2.2.2.1 (by decide) [("en", "x")] [("it", "y")] rfl (by decide) (by decide)
    exact hm.trans (by decide)
